import Mathlib

/-
  Verification of the AURA compression core against its informal specification.

  The development shallowly embeds the Rust sources:
    - src/AURA-main/src/compressor.rs         (binary wire format, encode/decode)
    - src/AURA-main/src/template_library.rs   (template registry and formatting)
    - src/packages/aura-compression-rust/src/metadata.rs     (6-byte side channel)
    - src/packages/aura-compression-rust/src/conversation.rs (signature-keyed cache)

  Modelling conventions:
    - Rust byte slices and Rust Strings are modelled as `List Nat` of byte
      values; a Rust String is exactly its UTF-8 byte sequence, so
      `as_bytes` is the identity and `String::from_utf8` succeeds exactly on
      valid UTF-8 input, returning the same bytes.
    - machine integer casts are explicit: `as u8` is `% 256`, `as u16` is
      `% 65536`, `as u32` is `% 4294967296`.
    - `std::time::Instant` and the unix timestamp are modelled as a `Nat`
      tick supplied explicitly by the caller (explicit state passing).
    - `HashMap` is modelled as an association list with unique keys;
      iteration order of a Rust HashMap is unspecified, the list order
      stands in for one arbitrary iteration order.
    - fallible operations return `Except`; the textual detail carried by a
      UTF-8 decoding failure (the `Display` output of `Utf8Error`) is
      modelled by one fixed string, no claim depends on it.
-/

namespace Aura

/-- Byte strings: Rust `&[u8]` / `Vec<u8>` / the UTF-8 bytes of a `String`. -/
abbrev Bytes := List Nat

/-- Big-endian bytes of a `u16` (`u16::to_be_bytes`). -/
def toBeBytes2 (n : Nat) : Bytes := [n / 256 % 256, n % 256]

/-- Big-endian bytes of a `u32` (`u32::to_be_bytes`). -/
def toBeBytes4 (n : Nat) : Bytes :=
  [n / 16777216 % 256, n / 65536 % 256, n / 256 % 256, n % 256]

/-- `u16::from_be_bytes([a, b])`. -/
def fromBe2 (a b : Nat) : Nat := a * 256 + b

/-- `u32::from_be_bytes([a, b, c, d])`. -/
def fromBe4 (a b c d : Nat) : Nat := ((a * 256 + b) * 256 + c) * 256 + d

/-- UTF-8 continuation byte test (`0x80..=0xBF`). -/
def isCont (b : Nat) : Bool := 128 ≤ b && b ≤ 191

/-- States of the standard UTF-8 acceptance automaton: `accept` awaits a
lead byte; the middle states await one, two or three continuation bytes
(with the restricted first-continuation ranges that follow the lead bytes
E0, ED, F0 and F4, which exclude overlong forms and surrogates); `bad`
absorbs errors. -/
inductive Utf8S
  | accept
  | one
  | two
  | twoE0
  | twoED
  | three
  | threeF0
  | threeF4
  | bad
deriving DecidableEq, Repr

/-- One transition of the UTF-8 acceptance automaton, as enforced by
`String::from_utf8`. -/
def utf8State (s : Utf8S) (b : Nat) : Utf8S :=
  match s with
  | .accept =>
    if b ≤ 127 then .accept
    else if 194 ≤ b && b ≤ 223 then .one
    else if b == 224 then .twoE0
    else if (225 ≤ b && b ≤ 236) || b == 238 || b == 239 then .two
    else if b == 237 then .twoED
    else if b == 240 then .threeF0
    else if 241 ≤ b && b ≤ 243 then .three
    else if b == 244 then .threeF4
    else .bad
  | .one => if isCont b then .accept else .bad
  | .two => if isCont b then .one else .bad
  | .twoE0 => if 160 ≤ b && b ≤ 191 then .one else .bad
  | .twoED => if 128 ≤ b && b ≤ 159 then .one else .bad
  | .three => if isCont b then .two else .bad
  | .threeF0 => if 144 ≤ b && b ≤ 191 then .two else .bad
  | .threeF4 => if 128 ≤ b && b ≤ 143 then .two else .bad
  | .bad => .bad

/-- Standard UTF-8 well-formedness of a byte sequence, as enforced by
`String::from_utf8`: the acceptance automaton ends in the accepting
state. -/
def validUtf8 (bs : List Nat) : Bool :=
  match bs.foldl utf8State .accept with
  | .accept => true
  | _ => false

/-- `String::from_utf8` on the byte-sequence model of strings: succeeds
exactly on valid UTF-8 and returns the bytes unchanged. -/
def from_utf8 (bs : Bytes) : Except String Bytes :=
  if validUtf8 bs then .ok bs else .error "invalid utf-8 sequence"

/-- The UTF-8 encoding of one unicode scalar value. -/
def utf8EncodeChar (c : Nat) : List Nat :=
  if c < 128 then [c]
  else if c < 2048 then [192 + c / 64, 128 + c % 64]
  else if c < 65536 then [224 + c / 4096, 128 + c / 64 % 64, 128 + c % 64]
  else [240 + c / 262144, 128 + c / 4096 % 64, 128 + c / 64 % 64, 128 + c % 64]

/-- The UTF-8 bytes of a string literal; used to transcribe the Rust string
literals of the source into the byte-sequence model. -/
def strBytes (s : String) : Bytes :=
  (s.data.map (fun c => utf8EncodeChar c.toNat)).flatten

instance {ε α : Type} [DecidableEq ε] [DecidableEq α] : DecidableEq (Except ε α)
  | .ok a, .ok b =>
      if h : a = b then .isTrue (by rw [h]) else .isFalse (by intro hc; cases hc; exact h rfl)
  | .ok _, .error _ => .isFalse (by intro hc; cases hc)
  | .error _, .ok _ => .isFalse (by intro hc; cases hc)
  | .error e, .error f =>
      if h : e = f then .isTrue (by rw [h]) else .isFalse (by intro hc; cases hc; exact h rfl)

/-! ### Metadata side channel (metadata.rs) -/

/-- `MetadataKind` from metadata.rs: five entry kinds with `repr(u8)`
discriminants `0x00..0x04`. -/
inductive MetadataKind
  | literal
  | template
  | lz77
  | semantic
  | fallback
deriving DecidableEq, Repr

/-- The `repr(u8)` discriminant of a `MetadataKind` (`kind as u8`). -/
def MetadataKind.toByte : MetadataKind → Nat
  | .literal => 0x00
  | .template => 0x01
  | .lz77 => 0x02
  | .semantic => 0x03
  | .fallback => 0x04

/-- `TryFrom<u8> for MetadataKind` from metadata.rs. -/
def MetadataKind.try_from (value : Nat) : Except String MetadataKind :=
  match value with
  | 0x00 => .ok .literal
  | 0x01 => .ok .template
  | 0x02 => .ok .lz77
  | 0x03 => .ok .semantic
  | 0x04 => .ok .fallback
  | _ => .error ("Invalid metadata kind: " ++ toString value)

/-- `MetadataEntry` from metadata.rs. `token_index` and `value` are `u16`
fields, `flags` a `u8` field; the Nat model carries the ranges in
`MetadataEntry.wf`. -/
structure MetadataEntry where
  token_index : Nat
  kind : MetadataKind
  value : Nat
  flags : Nat
deriving DecidableEq, Repr

/-- `MetadataEntry::new`: flags are always initialised to 0. -/
def MetadataEntry.new (token_index : Nat) (kind : MetadataKind) (value : Nat) :
    MetadataEntry :=
  { token_index := token_index, kind := kind, value := value, flags := 0 }

/-- The field ranges imposed by the Rust types `u16`/`u16`/`u8`. -/
def MetadataEntry.wf (e : MetadataEntry) : Prop :=
  e.token_index < 65536 ∧ e.value < 65536 ∧ e.flags < 256

instance (e : MetadataEntry) : Decidable e.wf := by
  unfold MetadataEntry.wf; infer_instance

/-- `MetadataEntry::to_bytes`: 6 bytes, big-endian `token_index`, the kind
byte, big-endian `value`, then `flags`. -/
def MetadataEntry.to_bytes (e : MetadataEntry) : Bytes :=
  toBeBytes2 e.token_index ++ [e.kind.toByte] ++ toBeBytes2 e.value ++ [e.flags]

/-- `MetadataEntry::from_bytes`: rejects any length other than 6 and any
unrecognised kind byte. -/
def MetadataEntry.from_bytes (bytes : Bytes) : Except String MetadataEntry :=
  if bytes.length ≠ 6 then
    .error ("Metadata entry must be 6 bytes, got " ++ toString bytes.length)
  else
    match MetadataKind.try_from (bytes.getD 2 0) with
    | .error e => .error e
    | .ok kind =>
      .ok { token_index := fromBe2 (bytes.getD 0 0) (bytes.getD 1 0)
            kind := kind
            value := fromBe2 (bytes.getD 3 0) (bytes.getD 4 0)
            flags := bytes.getD 5 0 }

/-- `u32::rotate_left`: rotation by `n % 32` bits within 32 bits. -/
def rotl32 (x n : Nat) : Nat :=
  ((x <<< (n % 32)) ||| (x >>> (32 - n % 32))) % 4294967296

/-- `compute_metadata_signature` from metadata.rs: XOR-accumulate, for each
entry at position `i`, `((kind as u32) << 16 | value).rotate_left(i % 32)`. -/
def compute_metadata_signature (metadata : List MetadataEntry) : Nat :=
  metadata.enum.foldl
    (fun signature ie =>
      signature ^^^ rotl32 ((ie.2.kind.toByte <<< 16) ||| ie.2.value) (ie.1 % 32))
    0

/-- `classify_intent_from_metadata` from metadata.rs: examines only the
first entry. -/
def classify_intent_from_metadata (metadata : List MetadataEntry) : String :=
  match metadata with
  | [] => "unknown"
  | first :: _ =>
    match first.kind with
    | .template =>
      match first.value with
      | 1 | 3 | 5 | 7 => "affirmative"
      | 2 | 4 => "apology"
      | 12 => "thinking"
      | 10 | 13 => "question"
      | _ => "unknown"
    | .literal => "custom"
    | .fallback => "complex"
    | _ => "unknown"

/-! ### Spec-side restatements (written from the wording of the spec, to be
compared with the definitions above) -/

/-- Modelled from the spec wording of the signature: "for each entry at
position i, compute `hash = (kind_byte << 16) | value`, rotate-left `hash`
by `(i mod 32)` bits, XOR-accumulate into a running signature" — here as a
plain XOR of the per-position rotated hashes. -/
def signature_spec (metadata : List MetadataEntry) : Nat :=
  (metadata.enum.map
    (fun ie => rotl32 ((ie.2.kind.toByte <<< 16) ||| ie.2.value) (ie.1 % 32))).foldr
    (fun a b => a ^^^ b) 0

/-- Modelled from the spec wording of intent classification: the fixed
lookup table of claim C8. -/
def classify_intent_spec (metadata : List MetadataEntry) : String :=
  match metadata with
  | [] => "unknown"
  | first :: _ =>
    match first.kind with
    | .template =>
      if first.value = 1 ∨ first.value = 3 ∨ first.value = 5 ∨ first.value = 7 then
        "affirmative"
      else if first.value = 2 ∨ first.value = 4 then "apology"
      else if first.value = 12 then "thinking"
      else if first.value = 10 ∨ first.value = 13 then "question"
      else "unknown"
    | .literal => "custom"
    | .fallback => "complex"
    | .lz77 => "unknown"
    | .semantic => "unknown"

/-! ### Errors and methods (lib.rs) -/

/-- `AuraError` from lib.rs. The `Io` and `Json` variants arise only in the
out-of-scope template-store file loader and are not modelled. -/
inductive AuraError
  | unknownMethod (byte : Nat)
  | compressionFailed (detail : String)
  | decompressionFailed (detail : String)
  | templateNotFound (id : Nat)
  | invalidPayload (detail : String)
deriving DecidableEq, Repr

/-- Fixed stand-in for the `Display` output of a `FromUtf8Error`; no claim
depends on the text. -/
def utf8ErrorDetail : String := "invalid utf-8 sequence"

/-- `CompressionMethod` from lib.rs. -/
inductive CompressionMethod
  | binarySemantic
  | auraLite
  | brio
  | auraLiteV2
  | uncompressed
deriving DecidableEq, Repr

/-- `CompressionMethod::from_byte`. -/
def CompressionMethod.from_byte (byte : Nat) : Except AuraError CompressionMethod :=
  match byte with
  | 0x00 => .ok .binarySemantic
  | 0x01 => .ok .auraLite
  | 0x02 => .ok .brio
  | 0x03 => .ok .auraLiteV2
  | 0xFF => .ok .uncompressed
  | _ => .error (.unknownMethod byte)

/-! ### Association lists standing in for `HashMap` -/

/-- `HashMap::get`: first value stored under the key (keys are unique). -/
def lookupKey {α : Type} : List (Nat × α) → Nat → Option α
  | [], _ => none
  | (k2, v) :: rest, k => if k2 = k then some v else lookupKey rest k

/-- `HashMap::insert`: replace the value under an existing key, otherwise
add the binding. -/
def insertKey {α : Type} : List (Nat × α) → Nat → α → List (Nat × α)
  | [], k, v => [(k, v)]
  | (k2, v2) :: rest, k, v =>
    if k2 = k then (k, v) :: rest else (k2, v2) :: insertKey rest k v

/-- `HashMap::remove` of a (unique) key. -/
def eraseKey {α : Type} : List (Nat × α) → Nat → List (Nat × α)
  | [], _ => []
  | (k2, v) :: rest, k =>
    if k2 = k then eraseKey rest k else (k2, v) :: eraseKey rest k

/-! ### Template library (template_library.rs) -/

/-- `TemplateLibrary`: a map from template id to pattern bytes. -/
abbrev TemplateLibrary := List (Nat × Bytes)

/-- `TemplateLibrary::register`: inserts or overwrites, no validation. -/
def TemplateLibrary.register (t : TemplateLibrary) (template_id : Nat)
    (pattern : Bytes) : TemplateLibrary :=
  insertKey t template_id pattern

/-- `TemplateLibrary::load_core_templates`: the 20 built-in patterns,
inserted for ids 0 through 19. -/
def TemplateLibrary.load_core_templates (t : TemplateLibrary) : TemplateLibrary :=
  [ (0, strBytes "I don\x27t have access to \x7b0\x7d. \x7b1\x7d"),
    (1, strBytes "I cannot \x7b0\x7d."),
    (2, strBytes "I\x27m unable to \x7b0\x7d because \x7b1\x7d."),
    (3, strBytes "I don\x27t have the ability to \x7b0\x7d."),
    (4, strBytes "I\x27m not able to \x7b0\x7d."),
    (5, strBytes "I cannot \x7b0\x7d as I \x7b1\x7d."),
    (6, strBytes "I\x27m sorry, but I cannot \x7b0\x7d."),
    (7, strBytes "I don\x27t have \x7b0\x7d."),
    (8, strBytes "Unfortunately, I cannot \x7b0\x7d."),
    (9, strBytes "I\x27m unable to \x7b0\x7d."),
    (10, strBytes "The \x7b0\x7d of \x7b1\x7d is \x7b2\x7d."),
    (11, strBytes "\x7b0\x7d is \x7b1\x7d."),
    (12, strBytes "The capital of \x7b0\x7d is \x7b1\x7d."),
    (13, strBytes "\x7b0\x7d was born in \x7b1\x7d."),
    (14, strBytes "The population of \x7b0\x7d is approximately \x7b1\x7d."),
    (15, strBytes "\x7b0\x7d is located in \x7b1\x7d."),
    (16, strBytes "The year \x7b0\x7d was \x7b1\x7d."),
    (17, strBytes "\x7b0\x7d occurred in \x7b1\x7d."),
    (18, strBytes "The distance from \x7b0\x7d to \x7b1\x7d is \x7b2\x7d."),
    (19, strBytes "\x7b0\x7d is known for \x7b1\x7d.") ].foldl
    (fun m kp => insertKey m kp.1 kp.2) t

/-- `TemplateLibrary::new`: an empty map populated with the core
templates. -/
def TemplateLibrary.new : TemplateLibrary :=
  TemplateLibrary.load_core_templates []

/-- One step of `str::replace`: scan the haystack left to right, replacing
every non-overlapping occurrence of the pattern `p :: pp`. The `fuel`
argument makes the recursion structural; `fuel = haystack length` always
suffices because every step consumes at least one haystack byte. -/
def replaceGo (p : Nat) (pp rep : Bytes) : Nat → Bytes → Bytes
  | 0, s => s
  | fuel + 1, s =>
    match s with
    | [] => []
    | b :: rest =>
      if (p :: pp).isPrefixOf (b :: rest) then
        rep ++ replaceGo p pp rep fuel (rest.drop pp.length)
      else
        b :: replaceGo p pp rep fuel rest

/-- `str::replace`: all non-overlapping occurrences, leftmost first. The
empty-pattern case never arises at the one call site (placeholders are
nonempty); Rust would match at every character boundary there. -/
def replaceAll (s pat rep : Bytes) : Bytes :=
  match pat with
  | [] => s
  | p :: pp => replaceGo p pp rep s.length s

/-- Decimal ASCII digits of a `usize`, as produced by `format!`. The
`fuel` argument makes the recursion structural; the initial value always
suffices because a number has at most `n` digits. -/
def natDecimalGo : Nat → Nat → Bytes
  | 0, n => [48 + n % 10]
  | fuel + 1, n =>
    if n < 10 then [48 + n] else natDecimalGo fuel (n / 10) ++ [48 + n % 10]

/-- Decimal ASCII digits of a `usize`. -/
def natDecimalBytes (n : Nat) : Bytes := natDecimalGo n n

/-- `format!("\x7b\x7b\x7b\x7d\x7d\x7d", i)`: the literal placeholder
token, an opening brace, the decimal index, a closing brace. -/
def placeholder (i : Nat) : Bytes := 123 :: natDecimalBytes i ++ [125]

/-- `TemplateLibrary::format_template`: fails with `TemplateNotFound` for
an absent id, otherwise substitutes each slot for its placeholder token in
increasing index order. -/
def TemplateLibrary.format_template (t : TemplateLibrary) (template_id : Nat)
    (slots : List Bytes) : Except AuraError Bytes :=
  match lookupKey t template_id with
  | none => .error (.templateNotFound template_id)
  | some pattern =>
    .ok (slots.enum.foldl (fun result is => replaceAll result (placeholder is.1) is.2)
      pattern)

/-- `str::find` of a byte substring: index of the leftmost occurrence. -/
def findSub : Bytes → Bytes → Option Nat
  | hay, needle =>
    if needle.isPrefixOf hay then some 0
    else
      match hay with
      | [] => none
      | _ :: t => (findSub t needle).map (· + 1)

/-- The loop of `TemplateLibrary::extract_slots`: walk the split pattern
parts; even positions are literal tokens that must occur, in order, in the
text; bytes skipped before a matched literal become slot values. -/
def extractSlotsLoop (text : Bytes) :
    List Bytes → Nat → Nat → List Bytes → Option (List Bytes)
  | [], _, _, slots => some slots
  | part :: rest, i, textPos, slots =>
    if part.isEmpty then extractSlotsLoop text rest (i + 1) textPos slots
    else if i % 2 = 1 then extractSlotsLoop text rest (i + 1) textPos slots
    else
      match findSub (text.drop textPos) part with
      | some pos =>
        extractSlotsLoop text rest (i + 1) (textPos + pos + part.length)
          (if 0 < i ∧ 0 < pos then slots ++ [(text.drop textPos).take pos] else slots)
      | none => none

/-- `TemplateLibrary::extract_slots`: split the pattern on brace
delimiters, then run the matching loop. -/
def TemplateLibrary.extract_slots (text pattern : Bytes) : Option (List Bytes) :=
  extractSlotsLoop text (pattern.splitOnP (fun c => c == 123 || c == 125)) 0 0 []

/-- `TemplateLibrary::match_template`: first template (in map iteration
order, modelled by list order) whose slot extraction succeeds. -/
def TemplateLibrary.match_template (t : TemplateLibrary) (text : Bytes) :
    Option (Nat × List Bytes) :=
  match t with
  | [] => none
  | (id, pattern) :: rest =>
    match TemplateLibrary.extract_slots text pattern with
    | some slots => some (id, slots)
    | none => TemplateLibrary.match_template rest text

/-! ### Compressor (compressor.rs)

The `Compressor` struct fields other than the template library (audit
flags, session and user ids, the preference margin) play no part in any of
the modelled operations, so the library is passed explicitly. The f64
`ratio` field of `CompressionMetadata` is floating point and is omitted
from the model; no claim mentions it. The unix timestamp taken from the
system clock is passed in explicitly. -/

structure CompressionMetadata where
  original_size : Nat
  compressed_size : Nat
  method : String
  template_ids : List Nat
  timestamp : Nat
deriving DecidableEq, Repr

/-- The per-slot body of `compress_binary_semantic`: a 2-byte big-endian
length (`len as u16`) followed by the slot bytes, for each slot in order. -/
def encodeSlots : List Bytes → Bytes
  | [] => []
  | s :: rest => toBeBytes2 (s.length % 65536) ++ s ++ encodeSlots rest

/-- `Compressor::compress_binary_semantic`: method byte 0x00, the template
id as one byte (`as u8`), the slot count as one byte (`as u8`), then the
length-prefixed slots. Never fails. -/
def Compressor.compress_binary_semantic (template_id : Nat) (slots : List Bytes) :
    Except AuraError Bytes :=
  .ok (0x00 :: template_id % 256 :: slots.length % 256 :: encodeSlots slots)

/-- `Compressor::compress_auralite`: method byte 0x01, the 4-byte
big-endian UTF-8 byte length (`len as u32`), then the raw bytes. Never
fails. -/
def Compressor.compress_auralite (text : Bytes) : Except AuraError Bytes :=
  .ok (0x01 :: toBeBytes4 (text.length % 4294967296) ++ text)

/-- `Compressor::compress`: explicit template id and slots win; otherwise
try template matching; otherwise fall back to AuraLite. -/
def Compressor.compress (lib : TemplateLibrary) (text : Bytes)
    (template_id : Option Nat) (slots : Option (List Bytes)) (timestamp : Nat) :
    Except AuraError (Bytes × CompressionMethod × CompressionMetadata) :=
  match template_id, slots with
  | some tid, some slot_list =>
    match Compressor.compress_binary_semantic tid slot_list with
    | .error e => .error e
    | .ok payload =>
      .ok (payload, .binarySemantic,
        { original_size := text.length, compressed_size := payload.length,
          method := "binary_semantic", template_ids := [tid], timestamp := timestamp })
  | _, _ =>
    match TemplateLibrary.match_template lib text with
    | some (tid, found_slots) =>
      match Compressor.compress_binary_semantic tid found_slots with
      | .error e => .error e
      | .ok payload =>
        .ok (payload, .binarySemantic,
          { original_size := text.length, compressed_size := payload.length,
            method := "binary_semantic", template_ids := [tid], timestamp := timestamp })
    | none =>
      match Compressor.compress_auralite text with
      | .error e => .error e
      | .ok payload =>
        .ok (payload, .auraLite,
          { original_size := text.length, compressed_size := payload.length,
            method := "auralite", template_ids := [], timestamp := timestamp })

/-- The slot-reading loop of `decompress_binary_semantic`: each iteration
checks that two length bytes remain, reads the 2-byte big-endian slot
length, checks that the slot data remains, then UTF-8 decodes the slice. -/
def Compressor.parseSlots (data : Bytes) : Nat → Nat → Except AuraError (List Bytes)
  | _, 0 => .ok []
  | offset, count + 1 =>
    if data.length < offset + 2 then .error (.invalidPayload "Malformed binary payload")
    else
      let slotLen := fromBe2 (data.getD offset 0) (data.getD (offset + 1) 0)
      if data.length < offset + 2 + slotLen then
        .error (.invalidPayload "Malformed binary payload")
      else
        match from_utf8 ((data.drop (offset + 2)).take slotLen) with
        | .error _ => .error (.decompressionFailed utf8ErrorDetail)
        | .ok slot =>
          match Compressor.parseSlots data (offset + 2 + slotLen) count with
          | .error e => .error e
          | .ok slots => .ok (slot :: slots)

/-- `Compressor::decompress_binary_semantic`: needs at least the id byte
and the count byte, parses `slot_count` slots from offset 2 (trailing
bytes are ignored), then formats the template. -/
def Compressor.decompress_binary_semantic (lib : TemplateLibrary) (data : Bytes) :
    Except AuraError Bytes :=
  if data.length < 2 then .error (.invalidPayload "Malformed binary payload")
  else
    match Compressor.parseSlots data 2 (data.getD 1 0) with
    | .error e => .error e
    | .ok slots => TemplateLibrary.format_template lib (data.getD 0 0) slots

/-- `Compressor::decompress_auralite`: 4-byte big-endian length, bounds
check, UTF-8 decode of the slice (trailing bytes are ignored). -/
def Compressor.decompress_auralite (data : Bytes) : Except AuraError Bytes :=
  if data.length < 4 then .error (.invalidPayload "Malformed AuraLite payload")
  else
    let textLen := fromBe4 (data.getD 0 0) (data.getD 1 0) (data.getD 2 0) (data.getD 3 0)
    if data.length < 4 + textLen then .error (.invalidPayload "Malformed AuraLite payload")
    else
      match from_utf8 ((data.drop 4).take textLen) with
      | .ok text => .ok text
      | .error _ => .error (.decompressionFailed utf8ErrorDetail)

/-- `Compressor::decompress`: empty payloads are rejected, the method byte
is dispatched; the catch-all arm of the Rust match sends `Brio` to
`UnknownMethod`. -/
def Compressor.decompress (lib : TemplateLibrary) (payload : Bytes) :
    Except AuraError Bytes :=
  match payload with
  | [] => .error (.invalidPayload "Empty payload")
  | byte :: rest =>
    match CompressionMethod.from_byte byte with
    | .error e => .error e
    | .ok .binarySemantic => Compressor.decompress_binary_semantic lib rest
    | .ok .auraLite => Compressor.decompress_auralite rest
    | .ok .auraLiteV2 => Compressor.decompress_auralite rest
    | .ok .uncompressed =>
      match from_utf8 rest with
      | .ok text => .ok text
      | .error _ => .error (.decompressionFailed utf8ErrorDetail)
    | .ok .brio => .error (.unknownMethod byte)

/-- The set of error kinds named by the malformed-payload safety claim:
`InvalidPayload`, `DecompressionFailed` and `UnknownMethod`. -/
def isClaimedDecodeError : AuraError → Bool
  | .invalidPayload _ => true
  | .decompressionFailed _ => true
  | .unknownMethod _ => true
  | _ => false

/-! ### Conversation cache (conversation.rs)

`Instant` timestamps are modelled as a `Nat` tick passed explicitly to
every operation that reads the clock. -/

/-- `CachedPattern` from conversation.rs. -/
structure CachedPattern where
  signature : Nat
  metadata : List MetadataEntry
  compressed_payload : Bytes
  decompressed_text : Option Bytes
  hit_count : Nat
  last_used : Nat
deriving DecidableEq, Repr

/-- `CachedPattern::new`: zero hits, last used now. -/
def CachedPattern.new (signature : Nat) (metadata : List MetadataEntry)
    (compressed_payload : Bytes) (decompressed_text : Option Bytes) (now : Nat) :
    CachedPattern :=
  { signature := signature, metadata := metadata,
    compressed_payload := compressed_payload,
    decompressed_text := decompressed_text, hit_count := 0, last_used := now }

/-- `ConversationCache` from conversation.rs. -/
structure ConversationCache where
  max_size : Nat
  cache : List (Nat × CachedPattern)
  hit_count : Nat
  miss_count : Nat
deriving DecidableEq, Repr

/-- `ConversationCache::new`. -/
def ConversationCache.new (max_size : Nat) : ConversationCache :=
  { max_size := max_size, cache := [], hit_count := 0, miss_count := 0 }

/-- `HashMap::get_mut` followed by in-place mutation: replace the value
stored under the key. -/
def mapReplace {α : Type} (m : List (Nat × α)) (k : Nat) (v : α) : List (Nat × α) :=
  m.map (fun p => if p.1 = k then (k, v) else p)

/-- `ConversationCache::lookup`: on a hit the entry's hit count rises and
its timestamp is refreshed, and the cache-wide hit counter rises; on a
miss the miss counter rises. Returns the (updated) entry together with the
new cache state. -/
def ConversationCache.lookup (c : ConversationCache)
    (metadata : List MetadataEntry) (now : Nat) :
    Option CachedPattern × ConversationCache :=
  let signature := compute_metadata_signature metadata
  match lookupKey c.cache signature with
  | some pattern =>
    let updated : CachedPattern :=
      { pattern with hit_count := pattern.hit_count + 1, last_used := now }
    (some updated,
      { c with cache := mapReplace c.cache signature updated,
               hit_count := c.hit_count + 1 })
  | none => (none, { c with miss_count := c.miss_count + 1 })

/-- One comparison step of `min_by_key` on `last_used`: keep the earlier
entry unless the later one is strictly smaller (so the first minimum, in
iteration order, wins). -/
def lruMin (best y : Nat × CachedPattern) : Nat × CachedPattern :=
  if y.2.last_used < best.2.last_used then y else best

/-- `iter().min_by_key(|(_, pattern)| pattern.last_used)`: the key of the
first entry (in iteration order) with the smallest timestamp. -/
def minByLastUsed (l : List (Nat × CachedPattern)) : Option Nat :=
  match l with
  | [] => none
  | x :: rest => some ((rest.foldl lruMin x).1)

/-- `ConversationCache::store`: when the cache is at capacity and the
signature is new, the entry with the minimal timestamp is removed first;
then the fresh entry is inserted under the signature. -/
def ConversationCache.store (c : ConversationCache)
    (metadata : List MetadataEntry) (compressed_payload : Bytes)
    (decompressed_text : Option Bytes) (now : Nat) : ConversationCache :=
  let signature := compute_metadata_signature metadata
  let cache1 :=
    if c.cache.length ≥ c.max_size ∧ lookupKey c.cache signature = none then
      match minByLastUsed c.cache with
      | some lru_signature => eraseKey c.cache lru_signature
      | none => c.cache
    else c.cache
  let entry := CachedPattern.new signature metadata compressed_payload decompressed_text now
  { c with cache := insertKey cache1 signature entry }

/-- One externally visible cache operation, with its clock tick. -/
inductive CacheOp
  | lookup (metadata : List MetadataEntry) (now : Nat)
  | store (metadata : List MetadataEntry) (compressed_payload : Bytes)
      (decompressed_text : Option Bytes) (now : Nat)

/-- Apply one operation to the cache state. -/
def applyOp (c : ConversationCache) : CacheOp → ConversationCache
  | .lookup metadata now => (c.lookup metadata now).2
  | .store metadata payload text now => c.store metadata payload text now

/-- Run a sequence of cache operations. -/
def runOps (c : ConversationCache) : List CacheOp → ConversationCache
  | [] => c
  | op :: rest => runOps (applyOp c op) rest

/-- A sequence of stores at consecutive clock ticks (strictly increasing
recency order), with fixed payload and text; the scenario of claim C5. -/
def storeSeq (c : ConversationCache) : List (List MetadataEntry) → Nat → ConversationCache
  | [], _ => c
  | m :: rest, now => storeSeq (c.store m [] none now) rest (now + 1)

/-- The cache contents produced by storing the given metadata sequences
into an empty cache with enough capacity, one per clock tick. -/
def filledEntries : List (List MetadataEntry) → Nat → List (Nat × CachedPattern)
  | [], _ => []
  | m :: rest, start =>
    (compute_metadata_signature m,
      CachedPattern.new (compute_metadata_signature m) m [] none start) ::
      filledEntries rest (start + 1)

/-! ## Supporting lemmas -/

theorem foldl_xor_eq_foldr {α : Type} (f : α → Nat) :
    ∀ (l : List α) (init : Nat),
      l.foldl (fun acc a => acc ^^^ f a) init =
        init ^^^ (l.map f).foldr (fun a b => a ^^^ b) 0 := by
  intro l
  induction l with
  | nil => intro init; simp
  | cons a t ih =>
    intro init
    simp only [List.foldl_cons, List.map_cons, List.foldr_cons]
    rw [ih, Nat.xor_assoc]

theorem sig_foldl_congr (m1 m2 : List MetadataEntry)
    (h : List.Forall₂ (fun a b => a.kind = b.kind ∧ a.value = b.value) m1 m2) :
    ∀ (n acc : Nat),
      (m1.enumFrom n).foldl
        (fun signature ie =>
          signature ^^^ rotl32 ((ie.2.kind.toByte <<< 16) ||| ie.2.value) (ie.1 % 32))
        acc =
      (m2.enumFrom n).foldl
        (fun signature ie =>
          signature ^^^ rotl32 ((ie.2.kind.toByte <<< 16) ||| ie.2.value) (ie.1 % 32))
        acc := by
  induction h with
  | nil => intro n acc; rfl
  | cons hab _ ih =>
    intro n acc
    simp only [List.enumFrom_cons, List.foldl_cons, hab.1, hab.2]
    exact ih (n + 1) _

theorem sig_congr (m1 m2 : List MetadataEntry)
    (h : List.Forall₂ (fun a b => a.kind = b.kind ∧ a.value = b.value) m1 m2) :
    compute_metadata_signature m1 = compute_metadata_signature m2 := by
  unfold compute_metadata_signature
  exact sig_foldl_congr m1 m2 h 0 0

theorem lookupKey_insertKey_self {α : Type} (m : List (Nat × α)) (k : Nat) (v : α) :
    lookupKey (insertKey m k v) k = some v := by
  induction m with
  | nil => simp [insertKey, lookupKey]
  | cons p rest ih =>
    by_cases hk : p.1 = k
    · simp [insertKey, hk, lookupKey]
    · simp [insertKey, hk, lookupKey, ih]

theorem try_from_ok_iff (b : Nat) :
    (∃ k, MetadataKind.try_from b = .ok k) ↔ b < 5 := by
  constructor
  · rintro ⟨k, hk⟩
    by_contra hb
    push_neg at hb
    obtain ⟨c, rfl⟩ : ∃ c, b = c + 5 := ⟨b - 5, by omega⟩
    simp [MetadataKind.try_from] at hk
  · intro hb
    interval_cases b
    · exact ⟨.literal, rfl⟩
    · exact ⟨.template, rfl⟩
    · exact ⟨.lz77, rfl⟩
    · exact ⟨.semantic, rfl⟩
    · exact ⟨.fallback, rfl⟩

/-! ## Claims -/

/-- Claim C6: `compute_metadata_signature` equals the XOR over positions
`i` of `rotate_left((kind_byte << 16) | value, i mod 32)`; it is
deterministic; and the required test vector `[A, B]` versus `[B, A]` with
`A = (0, Template, 7)` and `B = (1, Literal, 50)` gives different
signatures. -/
theorem c6_signature_computation :
    (∀ metadata : List MetadataEntry,
        compute_metadata_signature metadata = signature_spec metadata)
    ∧ (∀ metadata : List MetadataEntry,
        compute_metadata_signature metadata = compute_metadata_signature metadata)
    ∧ compute_metadata_signature
        [MetadataEntry.new 0 .template 7, MetadataEntry.new 1 .literal 50] ≠
      compute_metadata_signature
        [MetadataEntry.new 1 .literal 50, MetadataEntry.new 0 .template 7] := by
  refine ⟨?_, fun _ => rfl, by decide⟩
  intro metadata
  unfold compute_metadata_signature signature_spec
  rw [foldl_xor_eq_foldr, Nat.zero_xor]

/-- Claim C8: intent classification matches the fixed table of the spec
(only the first entry is inspected), and the two required scenario values
hold. -/
theorem c8_classify_intent :
    (∀ metadata : List MetadataEntry,
        classify_intent_from_metadata metadata = classify_intent_spec metadata)
    ∧ classify_intent_from_metadata [] = "unknown"
    ∧ classify_intent_from_metadata [MetadataEntry.new 0 .template 1] = "affirmative" := by
  refine ⟨?_, rfl, rfl⟩
  intro metadata
  match metadata with
  | [] => rfl
  | first :: rest =>
    cases hk : first.kind <;>
      simp only [classify_intent_from_metadata, classify_intent_spec, hk]
    split <;> simp_all

/-- Claim C10: the signature ignores `token_index` and `flags`, so two
pairwise kind/value-equal metadata sequences are the same cache key: they
have equal signatures, `lookup` behaves identically on them, and a store
under one is a hit under the other. -/
theorem c10_cache_key_ignores_token_index_and_flags
    (m1 m2 : List MetadataEntry)
    (h : List.Forall₂ (fun a b => a.kind = b.kind ∧ a.value = b.value) m1 m2) :
    compute_metadata_signature m1 = compute_metadata_signature m2
    ∧ (∀ (c : ConversationCache) (now : Nat), c.lookup m1 now = c.lookup m2 now)
    ∧ (∀ (c : ConversationCache) (payload : Bytes) (text : Option Bytes) (now now2 : Nat),
        ((c.store m1 payload text now).lookup m2 now2).1.isSome = true) := by
  have hs := sig_congr m1 m2 h
  refine ⟨hs, ?_, ?_⟩
  · intro c now
    unfold ConversationCache.lookup
    rw [hs]
  · intro c payload text now now2
    unfold ConversationCache.lookup ConversationCache.store
    rw [← hs]
    simp [lookupKey_insertKey_self]

/-- Claim C4: metadata entries round-trip through `to_bytes`/`from_bytes`,
and `from_bytes` fails exactly when the input length differs from 6 or the
third byte is not one of the five kind values `0x00`-`0x04`. -/
theorem c4_metadata_entry_roundtrip :
    (∀ e : MetadataEntry, e.wf →
        MetadataEntry.from_bytes (MetadataEntry.to_bytes e) = .ok e)
    ∧ (∀ bytes : Bytes,
        (∃ e, MetadataEntry.from_bytes bytes = .ok e) ↔
          bytes.length = 6 ∧ bytes.getD 2 0 < 5) := by
  constructor
  · rintro ⟨ti, k, v, fl⟩ ⟨hti, hv, hfl⟩
    dsimp only [MetadataEntry.wf] at hti hv hfl
    have h1 : ti / 256 % 256 * 256 + ti % 256 = ti := by omega
    have h2 : v / 256 % 256 * 256 + v % 256 = v := by omega
    cases k <;>
      simp [MetadataEntry.to_bytes, MetadataEntry.from_bytes, toBeBytes2,
        MetadataKind.toByte, MetadataKind.try_from, List.getD, fromBe2, h1, h2]
  · intro bytes
    constructor
    · rintro ⟨e, he⟩
      unfold MetadataEntry.from_bytes at he
      by_cases hl : bytes.length = 6
      · refine ⟨hl, ?_⟩
        rw [if_neg (by omega)] at he
        rcases hk : MetadataKind.try_from (bytes.getD 2 0) with e2 | k
        · rw [hk] at he; cases he
        · exact (try_from_ok_iff _).mp ⟨k, hk⟩
      · rw [if_pos hl] at he; cases he
    · rintro ⟨hl, hb⟩
      obtain ⟨k, hk⟩ := (try_from_ok_iff _).mpr hb
      refine ⟨{ token_index := fromBe2 (bytes.getD 0 0) (bytes.getD 1 0), kind := k,
                value := fromBe2 (bytes.getD 3 0) (bytes.getD 4 0),
                flags := bytes.getD 5 0 }, ?_⟩
      unfold MetadataEntry.from_bytes
      rw [if_neg (by omega), hk]

/-- Witness for claim C10 at two concrete single-entry sequences differing
only in `token_index` and `flags`. -/
theorem c10_cache_key_witness :
    compute_metadata_signature [MetadataEntry.mk 0 .template 7 0] =
      compute_metadata_signature [MetadataEntry.mk 5 .template 7 9]
    ∧ (ConversationCache.new 5).lookup [MetadataEntry.mk 0 .template 7 0] 3 =
        (ConversationCache.new 5).lookup [MetadataEntry.mk 5 .template 7 9] 3
    ∧ (((ConversationCache.new 5).store [MetadataEntry.mk 0 .template 7 0] [] none 0).lookup
        [MetadataEntry.mk 5 .template 7 9] 1).1.isSome = true := by
  have h := c10_cache_key_ignores_token_index_and_flags
    [MetadataEntry.mk 0 .template 7 0] [MetadataEntry.mk 5 .template 7 9]
    (List.Forall₂.cons ⟨rfl, rfl⟩ List.Forall₂.nil)
  exact ⟨h.1, h.2.1 _ 3, h.2.2 _ [] none 0 1⟩

/-- Witness for claim C4 at the concrete entry `(42, Template, 7)` and one
concrete byte sequence with an invalid kind byte. -/
theorem c4_metadata_entry_witness :
    MetadataEntry.from_bytes (MetadataEntry.to_bytes (MetadataEntry.new 42 .template 7)) =
      .ok (MetadataEntry.new 42 .template 7)
    ∧ ((∃ e, MetadataEntry.from_bytes [0, 1, 9, 0, 5, 0] = .ok e) ↔
        ([0, 1, 9, 0, 5, 0] : Bytes).length = 6 ∧
          ([0, 1, 9, 0, 5, 0] : Bytes).getD 2 0 < 5) :=
  ⟨c4_metadata_entry_roundtrip.1 _ (by decide), c4_metadata_entry_roundtrip.2 _⟩

/-- Counterexample to claim C7 as stated: the slot string
"browse the internet" has 19 bytes, so `encode_binary_semantic` emits the
length prefix `0x00 0x13` and 19 slot bytes, not the claimed
`0x00 0x14` and 20 bytes. -/
theorem c7_encode_scenario_counterexample :
    (strBytes "browse the internet").length = 19
    ∧ Compressor.compress_binary_semantic 1 [strBytes "browse the internet"] =
        .ok ([0x00, 0x01, 0x01, 0x00, 0x13] ++ strBytes "browse the internet")
    ∧ Compressor.compress_binary_semantic 1 [strBytes "browse the internet"] ≠
        .ok ([0x00, 0x01, 0x01, 0x00, 0x14] ++ strBytes "browse the internet") := by
  decide

/-- Claim C7 as amended: with the built-in template 1 bound to
"I cannot \x7b0\x7d.", encoding the single slot "browse the internet"
(19 ASCII bytes) yields exactly `[0x00, 0x01, 0x01, 0x00, 0x13]` followed
by those 19 bytes, and decompressing that payload yields
"I cannot browse the internet.". -/
theorem c7_encode_scenario :
    Compressor.compress_binary_semantic 1 [strBytes "browse the internet"] =
      .ok ([0x00, 0x01, 0x01, 0x00, 0x13] ++ strBytes "browse the internet")
    ∧ Compressor.decompress TemplateLibrary.new
        ([0x00, 0x01, 0x01, 0x00, 0x13] ++ strBytes "browse the internet") =
      .ok (strBytes "I cannot browse the internet.") := by
  decide

theorem validUtf8_replicate_65 : ∀ n : Nat, validUtf8 (List.replicate n 65) = true := by
  have h : ∀ m : Nat, (List.replicate m 65).foldl utf8State .accept = .accept := by
    intro m
    induction m with
    | zero => rfl
    | succ k ih =>
      rw [List.replicate_succ, List.foldl_cons]
      exact ih
  intro n
  unfold validUtf8
  rw [h]

set_option maxRecDepth 4000 in
theorem decompress_auralite_zeros (t : Bytes) :
    Compressor.decompress_auralite ([0, 0, 0, 0] ++ t) = .ok ([] : Bytes) := by
  have hlen : ([0, 0, 0, 0] ++ t : Bytes).length = 4 + t.length := by
    rw [List.length_append]
    rfl
  unfold Compressor.decompress_auralite
  rw [if_neg (by rw [hlen]; omega)]
  have g0 : (([0, 0, 0, 0] ++ t : Bytes)).getD 0 0 = 0 := rfl
  have g1 : (([0, 0, 0, 0] ++ t : Bytes)).getD 1 0 = 0 := rfl
  have g2 : (([0, 0, 0, 0] ++ t : Bytes)).getD 2 0 = 0 := rfl
  have g3 : (([0, 0, 0, 0] ++ t : Bytes)).getD 3 0 = 0 := rfl
  have h0 : fromBe4 (([0, 0, 0, 0] ++ t : Bytes).getD 0 0)
      (([0, 0, 0, 0] ++ t : Bytes).getD 1 0)
      (([0, 0, 0, 0] ++ t : Bytes).getD 2 0)
      (([0, 0, 0, 0] ++ t : Bytes).getD 3 0) = 0 := by
    rw [g0, g1, g2, g3]
    decide
  simp only [h0]
  rw [if_neg (by rw [hlen]; omega)]
  rfl

/-- Counterexample to claim C3 as stated: the 4-byte length field is
`len as u32`, so a valid UTF-8 text of 2^32 bytes is encoded with length
field 0 and decompresses to the empty string, not to itself. -/
theorem c3_literal_roundtrip_counterexample :
    validUtf8 (List.replicate 4294967296 65) = true
    ∧ Compressor.compress_auralite (List.replicate 4294967296 65) =
        .ok (0x01 :: ([0, 0, 0, 0] ++ List.replicate 4294967296 65))
    ∧ Compressor.decompress TemplateLibrary.new
        (0x01 :: ([0, 0, 0, 0] ++ List.replicate 4294967296 65)) = .ok []
    ∧ (List.replicate 4294967296 65 : Bytes) ≠ ([] : Bytes) := by
  refine ⟨validUtf8_replicate_65 _, ?_, ?_, ?_⟩
  · unfold Compressor.compress_auralite
    rw [List.length_replicate, Nat.mod_self]
    rfl
  · show Compressor.decompress_auralite ([0, 0, 0, 0] ++ List.replicate 4294967296 65) =
      .ok []
    exact decompress_auralite_zeros _
  · intro h
    have := congrArg List.length h
    rw [List.length_replicate] at this
    exact absurd this (by decide)

/-- Claim C3 as amended: for every valid UTF-8 text of fewer than 2^32
bytes (the range representable by the 4-byte length field), the literal
AuraLite path round-trips exactly. -/
theorem c3_literal_roundtrip (lib : TemplateLibrary) (text : Bytes)
    (hutf : validUtf8 text = true) (hlen : text.length < 4294967296) :
    ∃ payload, Compressor.compress_auralite text = .ok payload ∧
      Compressor.decompress lib payload = .ok text := by
  refine ⟨_, rfl, ?_⟩
  rw [Nat.mod_eq_of_lt hlen]
  show Compressor.decompress_auralite (toBeBytes4 text.length ++ text) = .ok text
  have hfrom : fromBe4 ((toBeBytes4 text.length ++ text).getD 0 0)
      ((toBeBytes4 text.length ++ text).getD 1 0)
      ((toBeBytes4 text.length ++ text).getD 2 0)
      ((toBeBytes4 text.length ++ text).getD 3 0) = text.length := by
    show fromBe4 (text.length / 16777216 % 256) (text.length / 65536 % 256)
      (text.length / 256 % 256) (text.length % 256) = text.length
    unfold fromBe4
    omega
  have hlen4 : (toBeBytes4 text.length ++ text).length = 4 + text.length := by
    simp [toBeBytes4]
    omega
  unfold Compressor.decompress_auralite
  rw [if_neg (by omega)]
  simp only [hfrom]
  rw [if_neg (by omega)]
  have hdrop : ((toBeBytes4 text.length ++ text).drop 4).take text.length = text := by
    show text.take text.length = text
    exact List.take_length text
  rw [hdrop]
  simp [from_utf8, hutf]

/-- Witness for the amended claim C3 at a concrete two-byte text
containing a multi-byte UTF-8 character. -/
theorem c3_literal_roundtrip_witness :
    ∃ payload, Compressor.compress_auralite (strBytes "é") = .ok payload ∧
      Compressor.decompress TemplateLibrary.new payload = .ok (strBytes "é") :=
  c3_literal_roundtrip TemplateLibrary.new (strBytes "é") (by decide) (by decide)

theorem getD_drop {α : Type} : ∀ (i : Nat) (l : List α) (j : Nat) (d : α),
    (l.drop i).getD j d = l.getD (i + j) d := by
  intro i
  induction i with
  | zero =>
    intro l j d
    rw [List.drop_zero, Nat.zero_add]
  | succ k ih =>
    intro l j d
    cases l with
    | nil => rfl
    | cons a t =>
      rw [List.drop_succ_cons, ih, show k + 1 + j = k + j + 1 by omega,
        List.getD_cons_succ]

/-- Parsing the encoded slot section recovers the first `n` encoded slots,
for any slot list whose members are valid UTF-8 and shorter than 2^16
bytes. -/
theorem parseSlots_encodeSlots :
    ∀ (n : Nat) (slots : List Bytes) (data : Bytes) (offset : Nat),
      data.drop offset = encodeSlots slots →
      n ≤ slots.length →
      (∀ s ∈ slots, validUtf8 s = true ∧ s.length < 65536) →
      Compressor.parseSlots data offset n = .ok (slots.take n) := by
  intro n
  induction n with
  | zero =>
    intro slots data offset _ _ _
    rw [List.take_zero]
    rfl
  | succ m ih =>
    intro slots data offset hdrop hn hwf
    cases slots with
    | nil => exact absurd hn (by simp)
    | cons s rest =>
      obtain ⟨hsv, hsl⟩ := hwf s (List.mem_cons_self s rest)
      have hnr : m ≤ rest.length := by
        rw [List.length_cons] at hn
        omega
      have hmod : s.length % 65536 = s.length := Nat.mod_eq_of_lt hsl
      have hdata : data.drop offset
          = s.length / 256 % 256 :: s.length % 256 :: (s ++ encodeSlots rest) := by
        rw [hdrop]
        show encodeSlots (s :: rest) = _
        rw [encodeSlots, hmod]
        simp [toBeBytes2, List.append_assoc]
      have hoff : offset ≤ data.length := by
        by_contra hcon
        push_neg at hcon
        have hnil : data.drop offset = [] := List.drop_eq_nil_of_le (by omega)
        rw [hnil] at hdata
        simp at hdata
      have hlen : data.length - offset = 2 + s.length + (encodeSlots rest).length := by
        have hc := congrArg List.length hdata
        rw [List.length_drop] at hc
        simp [List.length_append] at hc
        omega
      have hg0 : data.getD offset 0 = s.length / 256 % 256 := by
        rw [← Nat.add_zero offset, ← getD_drop, hdata]
        rfl
      have hg1 : data.getD (offset + 1) 0 = s.length % 256 := by
        rw [← getD_drop, hdata]
        rfl
      have hslot : fromBe2 (s.length / 256 % 256) (s.length % 256) = s.length := by
        unfold fromBe2
        omega
      have hdrop2 : data.drop (offset + 2) = s ++ encodeSlots rest := by
        rw [← List.drop_drop 2 offset data, hdata]
        rfl
      have hdrop3 : data.drop (offset + 2 + s.length) = encodeSlots rest := by
        rw [← List.drop_drop s.length (offset + 2) data, hdrop2, List.drop_left]
      rw [Compressor.parseSlots]
      rw [if_neg (by omega)]
      simp only [hg0, hg1]
      rw [hslot]
      rw [if_neg (by omega)]
      rw [hdrop2, List.take_left, show from_utf8 s = .ok s by simp [from_utf8, hsv],
        ih rest data (offset + 2 + s.length) hdrop3 hnr
          (fun x hx => hwf x (List.mem_cons_of_mem s hx))]
      rfl

/-- Counterexample to claim C1 as stated: with the pattern "X\x7b0\x7dY"
registered under id 256, encoding template 256 with its single slot "a"
truncates the id to 0x00, so decompression formats the built-in template 0
instead of template 256. -/
theorem c1_template_roundtrip_counterexample :
    Compressor.compress_binary_semantic 256 [strBytes "a"] =
      .ok [0x00, 0x00, 0x01, 0x00, 0x01, 97]
    ∧ TemplateLibrary.format_template
        (TemplateLibrary.register TemplateLibrary.new 256 (strBytes "X\x7b0\x7dY"))
        256 [strBytes "a"] = .ok (strBytes "XaY")
    ∧ Compressor.decompress
        (TemplateLibrary.register TemplateLibrary.new 256 (strBytes "X\x7b0\x7dY"))
        [0x00, 0x00, 0x01, 0x00, 0x01, 97] =
      .ok (strBytes "I don\x27t have access to a. \x7b1\x7d")
    ∧ strBytes "I don\x27t have access to a. \x7b1\x7d" ≠ strBytes "XaY" := by
  decide

/-- Claim C1 as amended: for every registered template id below 256, every
slot list of fewer than 256 slots whose members are valid UTF-8 and
shorter than 2^16 bytes (the ranges representable by the one-byte id and
count fields and the two-byte length prefixes), decompressing the encoded
payload yields exactly the formatted template. -/
theorem c1_template_roundtrip (lib : TemplateLibrary) (template_id : Nat)
    (slots : List Bytes) (pattern : Bytes)
    (hid : template_id < 256) (hk : slots.length < 256)
    (hwf : ∀ s ∈ slots, validUtf8 s = true ∧ s.length < 65536)
    (hreg : lookupKey lib template_id = some pattern) :
    ∃ payload out,
      Compressor.compress_binary_semantic template_id slots = .ok payload ∧
      TemplateLibrary.format_template lib template_id slots = .ok out ∧
      Compressor.decompress lib payload = .ok out := by
  have hfmt : TemplateLibrary.format_template lib template_id slots =
      .ok (slots.enum.foldl (fun result is => replaceAll result (placeholder is.1) is.2)
        pattern) := by
    unfold TemplateLibrary.format_template
    rw [hreg]
  refine ⟨_, _, rfl, hfmt, ?_⟩
  rw [Nat.mod_eq_of_lt hid, Nat.mod_eq_of_lt hk]
  show Compressor.decompress_binary_semantic lib
    (template_id :: slots.length :: encodeSlots slots) = _
  unfold Compressor.decompress_binary_semantic
  rw [if_neg (by simp)]
  have hgd0 : (template_id :: slots.length :: encodeSlots slots : Bytes).getD 0 0 =
      template_id := rfl
  have hgd1 : (template_id :: slots.length :: encodeSlots slots : Bytes).getD 1 0 =
      slots.length := rfl
  rw [hgd0, hgd1,
    parseSlots_encodeSlots slots.length slots
      (template_id :: slots.length :: encodeSlots slots) 2 rfl (Nat.le_refl _) hwf,
    List.take_length]
  exact hfmt

/-- Witness for the amended claim C1: the built-in template 1 with the
single slot "browse the internet". -/
theorem c1_template_roundtrip_witness :
    ∃ payload out,
      Compressor.compress_binary_semantic 1 [strBytes "browse the internet"] =
        .ok payload ∧
      TemplateLibrary.format_template TemplateLibrary.new 1
        [strBytes "browse the internet"] = .ok out ∧
      Compressor.decompress TemplateLibrary.new payload = .ok out :=
  c1_template_roundtrip TemplateLibrary.new 1 [strBytes "browse the internet"]
    (strBytes "I cannot \x7b0\x7d.") (by decide) (by decide) (by decide) (by decide)

/-- Claim C9: `compress` with an explicit template id and slots performs no
library validation: it always succeeds with method `BinarySemantic`, the
payload carries the id truncated to its low 8 bits, and for an
unregistered (truncated) id the failure surfaces only when `decompress`
reaches `format_template` and returns `TemplateNotFound`. -/
theorem c9_compress_defers_template_validation (lib : TemplateLibrary)
    (text : Bytes) (template_id : Nat) (slots : List Bytes) (ts : Nat) :
    (∃ md, Compressor.compress lib text (some template_id) (some slots) ts =
        .ok (0x00 :: template_id % 256 :: slots.length % 256 :: encodeSlots slots,
          .binarySemantic, md))
    ∧ (0x00 :: template_id % 256 :: slots.length % 256 :: encodeSlots slots :
        Bytes).getD 1 0 = template_id % 256
    ∧ (lookupKey lib (template_id % 256) = none →
        (∀ s ∈ slots, validUtf8 s = true ∧ s.length < 65536) →
        Compressor.decompress lib
          (0x00 :: template_id % 256 :: slots.length % 256 :: encodeSlots slots) =
          .error (.templateNotFound (template_id % 256))) := by
  refine ⟨⟨_, rfl⟩, rfl, ?_⟩
  intro hreg hwf
  show Compressor.decompress_binary_semantic lib
    (template_id % 256 :: slots.length % 256 :: encodeSlots slots) = _
  unfold Compressor.decompress_binary_semantic
  rw [if_neg (by simp)]
  have hgd0 : (template_id % 256 :: slots.length % 256 :: encodeSlots slots :
      Bytes).getD 0 0 = template_id % 256 := rfl
  have hgd1 : (template_id % 256 :: slots.length % 256 :: encodeSlots slots :
      Bytes).getD 1 0 = slots.length % 256 := rfl
  rw [hgd0, hgd1,
    parseSlots_encodeSlots (slots.length % 256) slots
      (template_id % 256 :: slots.length % 256 :: encodeSlots slots) 2 rfl
      (Nat.mod_le _ _) hwf]
  unfold TemplateLibrary.format_template
  rw [hreg]

/-- Witness for claim C9 with the unregistered id 300 (low byte 44) and a
single well-formed slot. -/
theorem c9_compress_defers_template_validation_witness :
    (∃ md, Compressor.compress TemplateLibrary.new (strBytes "x") (some 300)
        (some [strBytes "a"]) 7 =
        .ok (0x00 :: 300 % 256 :: [strBytes "a"].length % 256 ::
          encodeSlots [strBytes "a"], .binarySemantic, md))
    ∧ (0x00 :: 300 % 256 :: [strBytes "a"].length % 256 ::
        encodeSlots [strBytes "a"] : Bytes).getD 1 0 = 300 % 256
    ∧ Compressor.decompress TemplateLibrary.new
        (0x00 :: 300 % 256 :: [strBytes "a"].length % 256 ::
          encodeSlots [strBytes "a"]) = .error (.templateNotFound (300 % 256)) := by
  have h := c9_compress_defers_template_validation TemplateLibrary.new
    (strBytes "x") 300 [strBytes "a"] 7
  exact ⟨h.1, h.2.1, h.2.2 (by decide) (by decide)⟩

theorem from_byte_error (b : Nat) (e : AuraError)
    (h : CompressionMethod.from_byte b = .error e) : e = .unknownMethod b := by
  unfold CompressionMethod.from_byte at h
  split at h <;> (cases h; try rfl)

theorem parseSlots_cases (data : Bytes) :
    ∀ (count offset : Nat),
      (∃ slots, Compressor.parseSlots data offset count = .ok slots)
      ∨ Compressor.parseSlots data offset count =
          .error (.invalidPayload "Malformed binary payload")
      ∨ Compressor.parseSlots data offset count =
          .error (.decompressionFailed utf8ErrorDetail) := by
  intro count
  induction count with
  | zero => intro offset; exact .inl ⟨[], rfl⟩
  | succ m ih =>
    intro offset
    rw [Compressor.parseSlots]
    by_cases h1 : data.length < offset + 2
    · rw [if_pos h1]
      exact .inr (.inl rfl)
    · rw [if_neg h1]
      simp only []
      by_cases h2 : data.length < offset + 2 +
          fromBe2 (data.getD offset 0) (data.getD (offset + 1) 0)
      · rw [if_pos h2]
        exact .inr (.inl rfl)
      · rw [if_neg h2]
        rcases h3 : from_utf8 ((data.drop (offset + 2)).take
            (fromBe2 (data.getD offset 0) (data.getD (offset + 1) 0))) with e | slot
        · exact .inr (.inr rfl)
        · rcases ih (offset + 2 +
              fromBe2 (data.getD offset 0) (data.getD (offset + 1) 0)) with
            ⟨slots, h4⟩ | h4 | h4
          · rw [h4]
            exact .inl ⟨slot :: slots, rfl⟩
          · rw [h4]
            exact .inr (.inl rfl)
          · rw [h4]
            exact .inr (.inr rfl)

theorem decompress_auralite_cases (data : Bytes) :
    (∃ text, Compressor.decompress_auralite data = .ok text)
    ∨ Compressor.decompress_auralite data =
        .error (.invalidPayload "Malformed AuraLite payload")
    ∨ Compressor.decompress_auralite data =
        .error (.decompressionFailed utf8ErrorDetail) := by
  unfold Compressor.decompress_auralite
  by_cases h1 : data.length < 4
  · rw [if_pos h1]
    exact .inr (.inl rfl)
  · rw [if_neg h1]
    simp only []
    by_cases h2 : data.length < 4 +
        fromBe4 (data.getD 0 0) (data.getD 1 0) (data.getD 2 0) (data.getD 3 0)
    · rw [if_pos h2]
      exact .inr (.inl rfl)
    · rw [if_neg h2]
      rcases h3 : from_utf8 ((data.drop 4).take
          (fromBe4 (data.getD 0 0) (data.getD 1 0) (data.getD 2 0) (data.getD 3 0)))
        with e | text
      · exact .inr (.inr rfl)
      · exact .inl ⟨text, rfl⟩

theorem decompress_binary_semantic_cases (lib : TemplateLibrary) (data : Bytes) :
    (∃ text, Compressor.decompress_binary_semantic lib data = .ok text)
    ∨ (∃ e, Compressor.decompress_binary_semantic lib data = .error e ∧
        (isClaimedDecodeError e = true ∨ ∃ id, e = .templateNotFound id)) := by
  unfold Compressor.decompress_binary_semantic
  by_cases h1 : data.length < 2
  · rw [if_pos h1]
    exact .inr ⟨_, rfl, .inl rfl⟩
  · rw [if_neg h1]
    rcases parseSlots_cases data (data.getD 1 0) 2 with ⟨slots, h2⟩ | h2 | h2
    · rw [h2]
      unfold TemplateLibrary.format_template
      rcases hlk : lookupKey lib (data.getD 0 0) with _ | pattern
      · exact .inr ⟨_, rfl, .inr ⟨_, rfl⟩⟩
      · exact .inl ⟨_, rfl⟩
    · rw [h2]
      exact .inr ⟨_, rfl, .inl rfl⟩
    · rw [h2]
      exact .inr ⟨_, rfl, .inl rfl⟩

/-- Counterexample to claim C2 as stated: a structurally well-formed
binary-semantic payload naming the unregistered template 20 makes
`decompress` return `TemplateNotFound`, which is not among the three error
kinds the claim lists. -/
theorem c2_malformed_payload_counterexample :
    Compressor.decompress TemplateLibrary.new [0x00, 20, 0x00] =
      .error (.templateNotFound 20)
    ∧ isClaimedDecodeError (.templateNotFound 20) = false := by
  decide

/-- Claim C2 as amended: the embedded `decompress` is a total function
whose every bounds access is guarded exactly as in the source, so for
every input it returns either a decoded string or a typed error that is
one of `InvalidPayload`, `DecompressionFailed`, `UnknownMethod` or
`TemplateNotFound`; an empty buffer, truncated slot-length bytes and
truncated slot data each yield `InvalidPayload`. -/
theorem c2_malformed_payload_safety :
    (∀ (lib : TemplateLibrary) (payload : Bytes),
        (∃ text, Compressor.decompress lib payload = .ok text)
        ∨ (∃ e, Compressor.decompress lib payload = .error e ∧
            (isClaimedDecodeError e = true ∨ ∃ id, e = .templateNotFound id)))
    ∧ (∀ lib : TemplateLibrary,
        Compressor.decompress lib [] = .error (.invalidPayload "Empty payload"))
    ∧ (∀ lib : TemplateLibrary,
        Compressor.decompress lib [0x00, 0x01, 0x01, 0x00] =
          .error (.invalidPayload "Malformed binary payload"))
    ∧ (∀ lib : TemplateLibrary,
        Compressor.decompress lib [0x00, 0x01, 0x01, 0x00, 0x05, 0x61] =
          .error (.invalidPayload "Malformed binary payload")) := by
  refine ⟨?_, fun lib => rfl, fun lib => rfl, fun lib => rfl⟩
  intro lib payload
  cases payload with
  | nil => exact .inr ⟨_, rfl, .inl rfl⟩
  | cons b rest =>
    rw [Compressor.decompress]
    rcases hfb : CompressionMethod.from_byte b with e | m
    · exact .inr ⟨e, rfl, .inl (by rw [from_byte_error b e hfb]; rfl)⟩
    · cases m with
      | binarySemantic => exact decompress_binary_semantic_cases lib rest
      | auraLite =>
        rcases decompress_auralite_cases rest with ⟨text, h⟩ | h | h
        · exact .inl ⟨text, h⟩
        · exact .inr ⟨_, h, .inl rfl⟩
        · exact .inr ⟨_, h, .inl rfl⟩
      | auraLiteV2 =>
        rcases decompress_auralite_cases rest with ⟨text, h⟩ | h | h
        · exact .inl ⟨text, h⟩
        · exact .inr ⟨_, h, .inl rfl⟩
        · exact .inr ⟨_, h, .inl rfl⟩
      | uncompressed =>
        rcases hu : from_utf8 rest with e | text
        · exact .inr ⟨_, rfl, .inl rfl⟩
        · exact .inl ⟨text, rfl⟩
      | brio => exact .inr ⟨_, rfl, .inl rfl⟩

theorem insertKey_of_lookup_none {α : Type} :
    ∀ (m : List (Nat × α)) (k : Nat) (v : α),
      lookupKey m k = none → insertKey m k v = m ++ [(k, v)] := by
  intro m
  induction m with
  | nil => intro k v _; rfl
  | cons p rest ih =>
    intro k v h
    unfold lookupKey at h
    unfold insertKey
    by_cases hk : p.1 = k
    · rw [if_pos hk] at h
      cases h
    · rw [if_neg hk] at h
      rw [if_neg hk, ih k v h, List.cons_append]

theorem length_insertKey_some {α : Type} :
    ∀ (m : List (Nat × α)) (k : Nat) (v w : α),
      lookupKey m k = some w → (insertKey m k v).length = m.length := by
  intro m
  induction m with
  | nil => intro k v w h; cases h
  | cons p rest ih =>
    intro k v w h
    unfold lookupKey at h
    unfold insertKey
    by_cases hk : p.1 = k
    · rw [if_pos hk]
      rfl
    · rw [if_neg hk] at h
      rw [if_neg hk, List.length_cons, List.length_cons, ih k v w h]

theorem length_eraseKey_le {α : Type} :
    ∀ (m : List (Nat × α)) (k : Nat), (eraseKey m k).length ≤ m.length := by
  intro m
  induction m with
  | nil => intro k; exact Nat.le_refl 0
  | cons p rest ih =>
    intro k
    unfold eraseKey
    by_cases hk : p.1 = k
    · rw [if_pos hk]
      exact Nat.le_succ_of_le (ih k)
    · rw [if_neg hk, List.length_cons, List.length_cons]
      exact Nat.succ_le_succ (ih k)

theorem length_eraseKey_lt {α : Type} :
    ∀ (m : List (Nat × α)) (k : Nat) (p : α),
      (k, p) ∈ m → (eraseKey m k).length < m.length := by
  intro m
  induction m with
  | nil => intro k p h; cases h
  | cons q rest ih =>
    intro k p h
    unfold eraseKey
    by_cases hk : q.1 = k
    · rw [if_pos hk, List.length_cons]
      exact Nat.lt_succ_of_le (length_eraseKey_le rest k)
    · rcases List.mem_cons.mp h with h1 | h1
      · exact absurd (by rw [← h1]) hk
      · rw [if_neg hk, List.length_cons, List.length_cons]
        exact Nat.succ_lt_succ (ih k p h1)

theorem eraseKey_of_forall_ne {α : Type} :
    ∀ (m : List (Nat × α)) (k : Nat), (∀ p ∈ m, p.1 ≠ k) → eraseKey m k = m := by
  intro m
  induction m with
  | nil => intro k _; rfl
  | cons q rest ih =>
    intro k h
    unfold eraseKey
    rw [if_neg (h q (List.mem_cons_self q rest)),
      ih k (fun p hp => h p (List.mem_cons_of_mem q hp))]

theorem lookupKey_eraseKey_of_none {α : Type} :
    ∀ (m : List (Nat × α)) (k j : Nat),
      lookupKey m j = none → lookupKey (eraseKey m k) j = none := by
  intro m
  induction m with
  | nil => intro k j _; rfl
  | cons q rest ih =>
    intro k j h
    unfold lookupKey at h
    by_cases hj : q.1 = j
    · rw [if_pos hj] at h
      cases h
    · rw [if_neg hj] at h
      unfold eraseKey
      by_cases hk : q.1 = k
      · rw [if_pos hk]
        exact ih k j h
      · rw [if_neg hk]
        unfold lookupKey
        rw [if_neg hj]
        exact ih k j h

theorem lookupKey_eq_none_of_not_mem_keys {α : Type} :
    ∀ (m : List (Nat × α)) (k : Nat), k ∉ m.map Prod.fst → lookupKey m k = none := by
  intro m
  induction m with
  | nil => intro k _; rfl
  | cons q rest ih =>
    intro k h
    rw [List.map_cons] at h
    unfold lookupKey
    rw [if_neg (fun he => h (by rw [← he]; exact List.mem_cons_self _ _))]
    exact ih k (fun hm => h (List.mem_cons_of_mem _ hm))

theorem lookupKey_append_of_none {α : Type} :
    ∀ (a b : List (Nat × α)) (k : Nat),
      lookupKey a k = none → lookupKey (a ++ b) k = lookupKey b k := by
  intro a
  induction a with
  | nil => intro b k _; rfl
  | cons q rest ih =>
    intro b k h
    obtain ⟨q1, q2⟩ := q
    rw [lookupKey] at h
    by_cases hk : q1 = k
    · rw [if_pos hk] at h
      cases h
    · rw [if_neg hk] at h
      rw [List.cons_append, lookupKey, if_neg hk]
      exact ih b k h

theorem lruMin_cases (x y : Nat × CachedPattern) : lruMin x y = y ∨ lruMin x y = x := by
  unfold lruMin
  split
  · exact .inl rfl
  · exact .inr rfl

theorem lruMin_foldl_mem :
    ∀ (l : List (Nat × CachedPattern)) (x : Nat × CachedPattern),
      l.foldl lruMin x ∈ x :: l := by
  intro l
  induction l with
  | nil => intro x; exact List.mem_cons_self x []
  | cons y t ih =>
    intro x
    rw [List.foldl_cons]
    rcases lruMin_cases x y with h2 | h2 <;> rw [h2]
    · exact List.mem_cons_of_mem x (ih y)
    · rcases List.mem_cons.mp (ih x) with h1 | h1
      · rw [h1]
        exact List.mem_cons_self x (y :: t)
      · exact List.mem_cons_of_mem x (List.mem_cons_of_mem y h1)

theorem lruMin_foldl_le :
    ∀ (l : List (Nat × CachedPattern)) (x : Nat × CachedPattern),
      (l.foldl lruMin x).2.last_used ≤ x.2.last_used
      ∧ ∀ y ∈ l, (l.foldl lruMin x).2.last_used ≤ y.2.last_used := by
  intro l
  induction l with
  | nil =>
    intro x
    exact ⟨Nat.le_refl _, by intro y hy; cases hy⟩
  | cons y t ih =>
    intro x
    rw [List.foldl_cons]
    obtain ⟨h1, h2⟩ := ih (lruMin x y)
    have hxy : (lruMin x y).2.last_used ≤ x.2.last_used ∧
        (lruMin x y).2.last_used ≤ y.2.last_used := by
      unfold lruMin
      split <;> rename_i hc <;> omega
    refine ⟨Nat.le_trans h1 hxy.1, ?_⟩
    intro z hz
    rcases List.mem_cons.mp hz with h3 | h3
    · rw [h3]
      exact Nat.le_trans h1 hxy.2
    · exact h2 z h3

theorem lruMin_foldl_fix :
    ∀ (l : List (Nat × CachedPattern)) (x : Nat × CachedPattern),
      (∀ y ∈ l, x.2.last_used < y.2.last_used) → l.foldl lruMin x = x := by
  intro l
  induction l with
  | nil => intro x _; rfl
  | cons y t ih =>
    intro x h
    rw [List.foldl_cons]
    have hxy : lruMin x y = x := by
      unfold lruMin
      rw [if_neg (by have := h y (List.mem_cons_self y t); omega)]
    rw [hxy]
    exact ih x (fun z hz => h z (List.mem_cons_of_mem y hz))

theorem minByLastUsed_eq_none_iff (l : List (Nat × CachedPattern)) :
    minByLastUsed l = none ↔ l = [] := by
  cases l <;> simp [minByLastUsed]

theorem minByLastUsed_spec (l : List (Nat × CachedPattern)) (k : Nat)
    (h : minByLastUsed l = some k) :
    ∃ p, (k, p) ∈ l ∧ ∀ q ∈ l, p.last_used ≤ q.2.last_used := by
  cases l with
  | nil => cases h
  | cons x rest =>
    unfold minByLastUsed at h
    have hk : (rest.foldl lruMin x).1 = k := by
      cases h
      rfl
    have hm := lruMin_foldl_mem rest x
    have hle := lruMin_foldl_le rest x
    refine ⟨(rest.foldl lruMin x).2, ?_, ?_⟩
    · rw [← hk]
      exact hm
    · intro q hq
      rcases List.mem_cons.mp hq with h1 | h1
      · rw [h1]
        exact hle.1
      · exact hle.2 q h1

theorem minByLastUsed_head_strict (x : Nat × CachedPattern)
    (rest : List (Nat × CachedPattern))
    (h : ∀ y ∈ rest, x.2.last_used < y.2.last_used) :
    minByLastUsed (x :: rest) = some x.1 := by
  show some ((rest.foldl lruMin x).1) = some x.1
  rw [lruMin_foldl_fix rest x h]

theorem length_eraseKey_nodup {α : Type} :
    ∀ (m : List (Nat × α)) (k : Nat) (p : α),
      (m.map Prod.fst).Nodup → (k, p) ∈ m → (eraseKey m k).length + 1 = m.length := by
  intro m
  induction m with
  | nil => intro k p _ h; cases h
  | cons q rest ih =>
    intro k p hnd h
    obtain ⟨q1, q2⟩ := q
    rw [List.map_cons, List.nodup_cons] at hnd
    unfold eraseKey
    by_cases hk : q1 = k
    · rw [if_pos hk]
      rw [eraseKey_of_forall_ne rest k ?keys]
      · rfl
      case keys =>
        intro r hr he
        exact hnd.1 (by rw [hk, ← he]; exact List.mem_map.mpr ⟨r, hr, rfl⟩)
    · rw [if_neg hk]
      rcases List.mem_cons.mp h with h1 | h1
      · exact absurd (congrArg Prod.fst h1.symm) hk
      · rw [List.length_cons, List.length_cons, ih k p hnd.2 h1]

/-- Storing never changes the configured capacity. -/
theorem store_max (c : ConversationCache) (m : List MetadataEntry) (p : Bytes)
    (t : Option Bytes) (now : Nat) : (c.store m p t now).max_size = c.max_size := rfl

/-- The cache contents after a store, with the lets of the definition
spelled out. -/
theorem store_cache_eq (c : ConversationCache) (m : List MetadataEntry) (p : Bytes)
    (t : Option Bytes) (now : Nat) :
    (c.store m p t now).cache =
      insertKey
        (if c.cache.length ≥ c.max_size ∧
            lookupKey c.cache (compute_metadata_signature m) = none then
          match minByLastUsed c.cache with
          | some lru_signature => eraseKey c.cache lru_signature
          | none => c.cache
        else c.cache)
        (compute_metadata_signature m)
        (CachedPattern.new (compute_metadata_signature m) m p t now) := rfl

/-- Storing into a cache within its capacity bound keeps it within the
bound, provided the capacity is at least 1. -/
theorem store_length_le (c : ConversationCache) (m : List MetadataEntry)
    (p : Bytes) (t : Option Bytes) (now : Nat)
    (hcap : 1 ≤ c.max_size) (hinv : c.cache.length ≤ c.max_size) :
    (c.store m p t now).cache.length ≤ c.max_size := by
  rw [store_cache_eq]
  by_cases hcond : c.cache.length ≥ c.max_size ∧
      lookupKey c.cache (compute_metadata_signature m) = none
  · rw [if_pos hcond]
    have hne : c.cache ≠ [] := by
      intro h0
      rw [h0] at hcond
      simp at hcond
      omega
    cases hmb : minByLastUsed c.cache with
    | none => exact absurd ((minByLastUsed_eq_none_iff _).mp hmb) hne
    | some k =>
      obtain ⟨q, hqmem, _⟩ := minByLastUsed_spec c.cache k hmb
      have herase := length_eraseKey_lt c.cache k q hqmem
      have hlk2 := lookupKey_eraseKey_of_none c.cache k _ hcond.2
      rw [insertKey_of_lookup_none _ _ _ hlk2, List.length_append]
      simp only [List.length_singleton]
      omega
  · rw [if_neg hcond]
    rcases hlk : lookupKey c.cache (compute_metadata_signature m) with _ | w
    · have hlt : c.cache.length < c.max_size := by
        by_contra hge
        exact hcond ⟨by omega, hlk⟩
      rw [insertKey_of_lookup_none _ _ _ hlk, List.length_append]
      simp only [List.length_singleton]
      omega
    · rw [length_insertKey_some _ _ _ w hlk]
      exact hinv

/-- A lookup never changes the number of cached entries. -/
theorem lookup_snd_cache_length (c : ConversationCache) (m : List MetadataEntry)
    (now : Nat) : ((c.lookup m now).2).cache.length = c.cache.length := by
  unfold ConversationCache.lookup
  simp only []
  cases hlk : lookupKey c.cache (compute_metadata_signature m) with
  | none => rfl
  | some pat =>
    show (mapReplace c.cache _ _).length = _
    unfold mapReplace
    exact List.length_map _ _

/-- A lookup never changes the configured capacity. -/
theorem lookup_snd_max (c : ConversationCache) (m : List MetadataEntry) (now : Nat) :
    ((c.lookup m now).2).max_size = c.max_size := by
  unfold ConversationCache.lookup
  simp only []
  cases hlk : lookupKey c.cache (compute_metadata_signature m) with
  | none => rfl
  | some pat => rfl

theorem applyOp_max (c : ConversationCache) (op : CacheOp) :
    (applyOp c op).max_size = c.max_size := by
  cases op with
  | lookup m now => exact lookup_snd_max c m now
  | store m p t now => exact store_max c m p t now

theorem applyOp_length_le (c : ConversationCache) (op : CacheOp)
    (hcap : 1 ≤ c.max_size) (hinv : c.cache.length ≤ c.max_size) :
    (applyOp c op).cache.length ≤ c.max_size := by
  cases op with
  | lookup m now =>
    show ((c.lookup m now).2).cache.length ≤ c.max_size
    rw [lookup_snd_cache_length]
    exact hinv
  | store m p t now => exact store_length_le c m p t now hcap hinv

/-- Any sequence of lookups and stores keeps a positive-capacity cache
within its capacity. -/
theorem runOps_length_le :
    ∀ (ops : List CacheOp) (c : ConversationCache),
      1 ≤ c.max_size → c.cache.length ≤ c.max_size →
      (runOps c ops).cache.length ≤ c.max_size := by
  intro ops
  induction ops with
  | nil => intro c _ h; exact h
  | cons op rest ih =>
    intro c hcap hinv
    rw [runOps]
    have hmax := applyOp_max c op
    have h := ih (applyOp c op) (by rw [hmax]; exact hcap)
      (by rw [hmax]; exact applyOp_length_le c op hcap hinv)
    rw [hmax] at h
    exact h

/-- A store at capacity under a fresh signature evicts exactly one entry,
one whose timestamp is minimal, and inserts the new entry. -/
theorem store_evicts_min (c : ConversationCache) (m : List MetadataEntry)
    (p : Bytes) (t : Option Bytes) (now : Nat)
    (hnd : (c.cache.map Prod.fst).Nodup)
    (hcap : 1 ≤ c.max_size)
    (hfull : c.cache.length = c.max_size)
    (hfresh : lookupKey c.cache (compute_metadata_signature m) = none) :
    ∃ k q, (k, q) ∈ c.cache
      ∧ (∀ r ∈ c.cache, q.last_used ≤ r.2.last_used)
      ∧ (c.store m p t now).cache =
          eraseKey c.cache k ++
            [(compute_metadata_signature m,
              CachedPattern.new (compute_metadata_signature m) m p t now)]
      ∧ (c.store m p t now).cache.length = c.max_size := by
  have hne : c.cache ≠ [] := by
    intro h0
    rw [h0] at hfull
    simp at hfull
    omega
  cases hmb : minByLastUsed c.cache with
  | none => exact absurd ((minByLastUsed_eq_none_iff _).mp hmb) hne
  | some k =>
    obtain ⟨q, hqmem, hqmin⟩ := minByLastUsed_spec c.cache k hmb
    have hlk2 := lookupKey_eraseKey_of_none c.cache k _ hfresh
    have hcacheeq : (c.store m p t now).cache =
        eraseKey c.cache k ++
          [(compute_metadata_signature m,
            CachedPattern.new (compute_metadata_signature m) m p t now)] := by
      rw [store_cache_eq, if_pos ⟨by omega, hfresh⟩, hmb]
      exact insertKey_of_lookup_none _ _ _ hlk2
    have hlen2 := length_eraseKey_nodup c.cache k q hnd hqmem
    refine ⟨k, q, hqmem, hqmin, hcacheeq, ?_⟩
    rw [hcacheeq, List.length_append]
    simp only [List.length_singleton]
    omega

theorem filledEntries_keys :
    ∀ (ms : List (List MetadataEntry)) (start : Nat),
      (filledEntries ms start).map Prod.fst = ms.map compute_metadata_signature := by
  intro ms
  induction ms with
  | nil => intro start; rfl
  | cons m rest ih =>
    intro start
    rw [filledEntries, List.map_cons, List.map_cons, ih]

theorem filledEntries_length :
    ∀ (ms : List (List MetadataEntry)) (start : Nat),
      (filledEntries ms start).length = ms.length := by
  intro ms
  induction ms with
  | nil => intro start; rfl
  | cons m rest ih =>
    intro start
    rw [filledEntries, List.length_cons, List.length_cons, ih]

theorem filledEntries_lastUsed_ge :
    ∀ (ms : List (List MetadataEntry)) (start : Nat),
      ∀ p ∈ filledEntries ms start, start ≤ p.2.last_used := by
  intro ms
  induction ms with
  | nil => intro start p hp; cases hp
  | cons m rest ih =>
    intro start p hp
    rw [filledEntries] at hp
    rcases List.mem_cons.mp hp with h1 | h1
    · rw [h1]
      exact Nat.le_refl start
    · have := ih (start + 1) p h1
      omega

theorem storeSeq_max :
    ∀ (ms : List (List MetadataEntry)) (c : ConversationCache) (start : Nat),
      (storeSeq c ms start).max_size = c.max_size := by
  intro ms
  induction ms with
  | nil => intro c start; rfl
  | cons m rest ih =>
    intro c start
    rw [storeSeq, ih, store_max]

theorem storeSeq_concat :
    ∀ (ms : List (List MetadataEntry)) (c : ConversationCache) (start : Nat)
      (mlast : List MetadataEntry),
      storeSeq c (ms ++ [mlast]) start =
        (storeSeq c ms start).store mlast [] none (start + ms.length) := by
  intro ms
  induction ms with
  | nil =>
    intro c start mlast
    rw [List.nil_append, storeSeq, storeSeq, storeSeq]
    rfl
  | cons m rest ih =>
    intro c start mlast
    rw [List.cons_append, storeSeq, ih, storeSeq]
    rw [List.length_cons, show start + 1 + rest.length = start + (rest.length + 1) by omega]

/-- Storing fresh, pairwise-distinct signatures into a cache with enough
spare capacity appends one entry per store, timestamped with consecutive
ticks. -/
theorem storeSeq_fill :
    ∀ (ms : List (List MetadataEntry)) (c : ConversationCache) (start : Nat),
      c.cache.length + ms.length ≤ c.max_size →
      (∀ m ∈ ms, lookupKey c.cache (compute_metadata_signature m) = none) →
      (ms.map compute_metadata_signature).Nodup →
      (storeSeq c ms start).cache = c.cache ++ filledEntries ms start := by
  intro ms
  induction ms with
  | nil =>
    intro c start _ _ _
    rw [storeSeq, filledEntries, List.append_nil]
  | cons m rest ih =>
    intro c start hcap hlk hnd
    rw [List.map_cons, List.nodup_cons] at hnd
    rw [List.length_cons] at hcap
    have hfresh := hlk m (List.mem_cons_self m rest)
    have hnotfull : ¬(c.cache.length ≥ c.max_size ∧
        lookupKey c.cache (compute_metadata_signature m) = none) := by
      rintro ⟨hge, _⟩
      omega
    have hstep : (c.store m [] none start).cache =
        c.cache ++ [(compute_metadata_signature m,
          CachedPattern.new (compute_metadata_signature m) m [] none start)] := by
      rw [store_cache_eq, if_neg hnotfull]
      exact insertKey_of_lookup_none _ _ _ hfresh
    rw [storeSeq]
    rw [ih (c.store m [] none start) (start + 1) ?hlen ?hlk2 hnd.2]
    · rw [hstep, List.append_assoc]
      rw [show filledEntries (m :: rest) start =
          (compute_metadata_signature m,
            CachedPattern.new (compute_metadata_signature m) m [] none start) ::
            filledEntries rest (start + 1) from rfl,
        List.singleton_append]
    case hlen =>
      rw [store_max, hstep, List.length_append]
      simp only [List.length_singleton]
      omega
    case hlk2 =>
      intro m2 hm2
      rw [hstep, lookupKey_append_of_none _ _ _ (hlk m2 (List.mem_cons_of_mem m hm2))]
      have hne2 : compute_metadata_signature m ≠ compute_metadata_signature m2 :=
        fun he => hnd.1 (he ▸ List.mem_map_of_mem compute_metadata_signature hm2)
      rw [lookupKey, if_neg hne2]
      rfl

/-- Counterexample to claim C5 as stated: a cache constructed with
capacity 0 accepts a store (evicting from the empty map is a no-op) and
then holds one entry, exceeding its capacity. -/
theorem c5_cache_bound_counterexample :
    (ConversationCache.new 0).max_size = 0
    ∧ ((ConversationCache.new 0).store [] [] none 0).cache.length = 1 := by
  decide

/-- Claim C5 as amended (for capacities of at least 1): the cache never
holds more than `max_size` entries under any sequence of lookups and
stores; a store at capacity under a fresh signature removes exactly one
entry, one with the oldest last-used timestamp; and after storing C+1
distinct signatures in strictly increasing recency order the cache has
size exactly C and no longer contains the earliest-inserted signature. -/
theorem c5_cache_bound_and_lru :
    (∀ (C : Nat) (ops : List CacheOp), 1 ≤ C →
        (runOps (ConversationCache.new C) ops).cache.length ≤ C)
    ∧ (∀ (c : ConversationCache) (metadata : List MetadataEntry) (payload : Bytes)
        (text : Option Bytes) (now : Nat),
        (c.cache.map Prod.fst).Nodup →
        1 ≤ c.max_size →
        c.cache.length = c.max_size →
        lookupKey c.cache (compute_metadata_signature metadata) = none →
        ∃ k q, (k, q) ∈ c.cache
          ∧ (∀ r ∈ c.cache, q.last_used ≤ r.2.last_used)
          ∧ (c.store metadata payload text now).cache =
              eraseKey c.cache k ++
                [(compute_metadata_signature metadata,
                  CachedPattern.new (compute_metadata_signature metadata) metadata
                    payload text now)]
          ∧ (c.store metadata payload text now).cache.length = c.max_size)
    ∧ (∀ (C : Nat) (ms : List (List MetadataEntry)), 1 ≤ C →
        ms.length = C + 1 →
        (ms.map compute_metadata_signature).Nodup →
        (storeSeq (ConversationCache.new C) ms 0).cache.length = C
        ∧ lookupKey (storeSeq (ConversationCache.new C) ms 0).cache
            (compute_metadata_signature (ms.headD [])) = none) := by
  refine ⟨?_, ?_, ?_⟩
  · intro C ops hC
    exact runOps_length_le ops (ConversationCache.new C) hC (by simp [ConversationCache.new])
  · intro c metadata payload text now hnd hcap hfull hfresh
    exact store_evicts_min c metadata payload text now hnd hcap hfull hfresh
  · intro C ms hC hmslen hnd
    have hne : ms ≠ [] := by
      intro h
      rw [h] at hmslen
      simp at hmslen
    have hms := List.dropLast_append_getLast hne
    set init := ms.dropLast with hinitdef
    set mlast := ms.getLast hne with hmlastdef
    have hinitlen : init.length = C := by
      have h := List.length_dropLast ms
      rw [hmslen] at h
      rw [hinitdef]
      omega
    have hndsplit : ((init.map compute_metadata_signature) ++
        [compute_metadata_signature mlast]).Nodup := by
      rw [show [compute_metadata_signature mlast] =
          List.map compute_metadata_signature [mlast] from rfl,
        ← List.map_append, hms]
      exact hnd
    rw [List.nodup_append] at hndsplit
    obtain ⟨hndinit, _, hdisj⟩ := hndsplit
    have hfill := storeSeq_fill init (ConversationCache.new C) 0 ?cap ?fresh hndinit
    case cap =>
      show ([] : List (Nat × CachedPattern)).length + init.length ≤ C
      simp
      omega
    case fresh =>
      intro m _
      rfl
    have hsplit := storeSeq_concat init (ConversationCache.new C) 0 mlast
    set S := storeSeq (ConversationCache.new C) init 0 with hSdef
    have hSmax : S.max_size = C := by
      rw [hSdef, storeSeq_max]
      rfl
    have hScache : S.cache = filledEntries init 0 := by
      rw [hSdef, hfill]
      rfl
    obtain ⟨m0, initRest, hinit⟩ : ∃ m0 initRest, init = m0 :: initRest := by
      cases hi : init with
      | nil => rw [hi] at hinitlen; simp at hinitlen; omega
      | cons a b => exact ⟨a, b, rfl⟩
    have hScache2 : S.cache = (compute_metadata_signature m0,
        CachedPattern.new (compute_metadata_signature m0) m0 [] none 0) ::
        filledEntries initRest 1 := by
      rw [hScache, hinit]
      rfl
    have hmlast_not : compute_metadata_signature mlast ∉
        init.map compute_metadata_signature := by
      intro hmem
      exact hdisj hmem (List.mem_singleton.mpr rfl)
    have hfreshS : lookupKey S.cache (compute_metadata_signature mlast) = none := by
      apply lookupKey_eq_none_of_not_mem_keys
      rw [hScache, filledEntries_keys]
      exact hmlast_not
    have hSlen : S.cache.length = C := by
      rw [hScache, filledEntries_length]
      exact hinitlen
    have hmin : minByLastUsed S.cache = some (compute_metadata_signature m0) := by
      rw [hScache2]
      apply minByLastUsed_head_strict
      intro y hy
      have h1 := filledEntries_lastUsed_ge initRest 1 y hy
      have h0 : (CachedPattern.new (compute_metadata_signature m0) m0 [] none
          0).last_used = 0 := rfl
      show (CachedPattern.new (compute_metadata_signature m0) m0 [] none
          0).last_used < y.2.last_used
      omega
    have herase : eraseKey S.cache (compute_metadata_signature m0) =
        filledEntries initRest 1 := by
      rw [hScache2, eraseKey, if_pos rfl]
      apply eraseKey_of_forall_ne
      intro r hr he
      have hkeys : r.1 ∈ (filledEntries initRest 1).map Prod.fst :=
        List.mem_map.mpr ⟨r, hr, rfl⟩
      rw [filledEntries_keys, he] at hkeys
      have hnd0 := hndinit
      rw [hinit, List.map_cons, List.nodup_cons] at hnd0
      exact hnd0.1 hkeys
    have hfinal : (storeSeq (ConversationCache.new C) ms 0).cache =
        filledEntries initRest 1 ++
          [(compute_metadata_signature mlast,
            CachedPattern.new (compute_metadata_signature mlast) mlast [] none
              (0 + init.length))] := by
      rw [← hms, hsplit, store_cache_eq,
        if_pos ⟨by rw [hSlen, hSmax], hfreshS⟩, hmin]
      have hfresh2 := lookupKey_eraseKey_of_none S.cache
        (compute_metadata_signature m0) (compute_metadata_signature mlast) hfreshS
      exact (insertKey_of_lookup_none _ _ _ hfresh2).trans (by rw [herase])
    constructor
    · rw [hfinal, List.length_append, filledEntries_length]
      have h2 : init.length = initRest.length + 1 := by rw [hinit]; rfl
      simp only [List.length_singleton]
      omega
    · have hhead : ms.headD [] = m0 := by
        rw [← hms, hinit]
        rfl
      rw [hfinal, hhead]
      apply lookupKey_eq_none_of_not_mem_keys
      rw [List.map_append, filledEntries_keys]
      intro hmem
      rcases List.mem_append.mp hmem with h1 | h1
      · have hnd0 := hndinit
        rw [hinit, List.map_cons, List.nodup_cons] at hnd0
        exact hnd0.1 h1
      · have hmem0 : compute_metadata_signature m0 ∈
            init.map compute_metadata_signature := by
          rw [hinit, List.map_cons]
          exact List.mem_cons_self _ _
        rw [List.map_cons, List.map_nil] at h1
        exact hdisj hmem0 h1

/-- Witness for the amended claim C5 at capacity 1: one store stays within
the bound; a concrete full cache evicts its minimal entry on a fresh
store; and two distinct-signature stores leave size 1 without the first
signature. -/
theorem c5_cache_bound_and_lru_witness :
    (runOps (ConversationCache.new 1) [CacheOp.store [] [] none 0]).cache.length ≤ 1
    ∧ (∃ k q, (k, q) ∈ [(5, CachedPattern.new 5 [] [] none 0)]
        ∧ (∀ r ∈ [(5, CachedPattern.new 5 [] [] none 0)],
            q.last_used ≤ r.2.last_used)
        ∧ (({ max_size := 1, cache := [(5, CachedPattern.new 5 [] [] none 0)],
              hit_count := 0, miss_count := 0 } : ConversationCache).store
            [MetadataEntry.mk 0 .template 7 0] [] none 3).cache =
          eraseKey [(5, CachedPattern.new 5 [] [] none 0)] k ++
            [(compute_metadata_signature [MetadataEntry.mk 0 .template 7 0],
              CachedPattern.new
                (compute_metadata_signature [MetadataEntry.mk 0 .template 7 0])
                [MetadataEntry.mk 0 .template 7 0] [] none 3)]
        ∧ (({ max_size := 1, cache := [(5, CachedPattern.new 5 [] [] none 0)],
              hit_count := 0, miss_count := 0 } : ConversationCache).store
            [MetadataEntry.mk 0 .template 7 0] [] none 3).cache.length = 1)
    ∧ ((storeSeq (ConversationCache.new 1)
          [[], [MetadataEntry.mk 0 .template 7 0]] 0).cache.length = 1
        ∧ lookupKey (storeSeq (ConversationCache.new 1)
            [[], [MetadataEntry.mk 0 .template 7 0]] 0).cache
          (compute_metadata_signature
            ([[], [MetadataEntry.mk 0 .template 7 0]].headD [])) = none) := by
  refine ⟨c5_cache_bound_and_lru.1 1 [CacheOp.store [] [] none 0] (by decide),
    c5_cache_bound_and_lru.2.1
      { max_size := 1, cache := [(5, CachedPattern.new 5 [] [] none 0)],
        hit_count := 0, miss_count := 0 }
      [MetadataEntry.mk 0 .template 7 0] [] none 3
      (by decide) (by decide) (by decide) (by decide),
    c5_cache_bound_and_lru.2.2 1 [[], [MetadataEntry.mk 0 .template 7 0]]
      (by decide) (by decide) (by decide)⟩

end Aura
